import Mathlib

/-!
Verification of the locator parsing module of the Aragon client
(`parsePath`, `getAppPath`, `parsePreferences`).

JavaScript strings are modelled as `List Char` (`JStr`). The JavaScript
string operations used by the source (`split`, `endsWith`, first-occurrence
`replace`, `indexOf`/`substr`, `encodeURIComponent`, `decodeURIComponent`)
are given executable definitions below, and the three exported functions are
translated on top of them. The `history.replace` side effect is modelled as
an explicit `Option HistoryReplace` component of the parse result, and the
injected collaborators (`isAddress`, `isValidEnsName`, the static application
registry) are parameters, since their implementations live outside the
reviewed module.
-/

/-- JavaScript string, modelled as its list of characters. -/
abbrev JStr := List Char

/-- Literal helper: the character list of a Lean string literal. -/
def jstr (s : String) : JStr := s.toList

/-- Boolean test that `pat` matches at the very beginning of the second list. -/
def leadsWith : JStr → JStr → Bool
  | [], _ => true
  | c :: cs, x :: xs => c = x && leadsWith cs xs
  | _ :: _, [] => false

/-- First occurrence of `pat` in a string: `some (pre, post)` where `pre` is
the text before the first occurrence and `post` the text after it, `none`
when `pat` does not occur (JavaScript `indexOf` returning `-1`). -/
def splitFirst (pat : JStr) : JStr → Option (JStr × JStr)
  | [] => if leadsWith pat [] then some ([], []) else none
  | c :: s =>
      if leadsWith pat (c :: s) then some ([], (c :: s).drop pat.length)
      else (splitFirst pat s).map (fun pr => (c :: pr.1, pr.2))

/-- JavaScript `s.split(sep)` for a single-character separator (used by the
source only as `pathname.split('/')`). -/
def splitChar (c : Char) : JStr → List JStr
  | [] => [[]]
  | x :: s =>
      if x = c then [] :: splitChar c s
      else
        match splitChar c s with
        | [] => [[x]]
        | y :: ys => (x :: y) :: ys

/-- JavaScript `s.split(sep)[0]` for a non-empty separator string: the text
before the first occurrence of `sep`, or all of `s` when `sep` is absent. -/
def jsSplitGet0 (sep s : JStr) : JStr :=
  match splitFirst sep s with
  | none => s
  | some (pre, _) => pre

/-- JavaScript `s.split(sep)[1]` for a non-empty separator string: the text
between the first and second occurrences of `sep` (everything after the
first occurrence when there is no second one), or `none` (`undefined`) when
`sep` does not occur. -/
def jsSplitGet1 (sep s : JStr) : Option JStr :=
  match splitFirst sep s with
  | none => none
  | some (_, post) => some (jsSplitGet0 sep post)

/-- JavaScript `s.endsWith(pat)`. -/
def jsEndsWith (pat s : JStr) : Bool :=
  leadsWith pat (s.drop (s.length - pat.length))

/-- JavaScript `s.replace(pat, rep)` with a string pattern: replaces only the
first occurrence, and returns `s` unchanged when `pat` does not occur. -/
def jsReplaceFirst (pat rep s : JStr) : JStr :=
  match splitFirst pat s with
  | none => s
  | some (pre, post) => pre ++ rep ++ post

/-! ## Percent encoding and decoding

`encodeURIComponent` leaves the unreserved characters `A-Z a-z 0-9 - _ . !
~ * ' ( )` alone and writes every other character as the uppercase-hex
percent escapes of its UTF-8 bytes. `decodeURIComponent` reverses this and
fails (JavaScript throws `URIError`) on malformed escapes: a `%` not
followed by two hex digits, continuation bytes out of place, truncated,
overlong or out-of-range sequences, and encoded surrogate code points. -/

/-- Characters `encodeURIComponent` passes through unescaped. -/
def isUnreservedURI (c : Char) : Bool :=
  ('A' ≤ c && c ≤ 'Z') || ('a' ≤ c && c ≤ 'z') || ('0' ≤ c && c ≤ '9') ||
  c = '-' || c = '_' || c = '.' || c = '!' || c = '~' || c = '*' ||
  c = '\'' || c = '(' || c = ')'

/-- Uppercase hexadecimal digit for a value below 16. -/
def hexDigitUpper (n : Nat) : Char :=
  Char.ofNat (if n < 10 then n + 48 else n + 55)

/-- Value of a hexadecimal digit character, accepting both cases. -/
def hexVal? (c : Char) : Option Nat :=
  let n := c.toNat
  if 48 ≤ n ∧ n ≤ 57 then some (n - 48)
  else if 65 ≤ n ∧ n ≤ 70 then some (n - 55)
  else if 97 ≤ n ∧ n ≤ 102 then some (n - 87)
  else none

/-- UTF-8 bytes of a code point. -/
def utf8Bytes (n : Nat) : List Nat :=
  if n < 0x80 then [n]
  else if n < 0x800 then [0xC0 + n / 64, 0x80 + n % 64]
  else if n < 0x10000 then [0xE0 + n / 4096, 0x80 + n / 64 % 64, 0x80 + n % 64]
  else [0xF0 + n / 262144, 0x80 + n / 4096 % 64, 0x80 + n / 64 % 64, 0x80 + n % 64]

/-- Percent escapes (uppercase hex) of a list of bytes. -/
def percentBytes : List Nat → JStr
  | [] => []
  | b :: bs => '%' :: hexDigitUpper (b / 16) :: hexDigitUpper (b % 16) :: percentBytes bs

/-- Encoding of one character by `encodeURIComponent`. -/
def encodeChar (c : Char) : JStr :=
  if isUnreservedURI c then [c] else percentBytes (utf8Bytes c.toNat)

/-- JavaScript `encodeURIComponent`. -/
def encodeURIComponent : JStr → JStr
  | [] => []
  | c :: s => encodeChar c ++ encodeURIComponent s

/-- Intermediate token of `decodeURIComponent`: either a character copied
through verbatim or a byte produced by a `%XX` escape. -/
inductive Tok where
  | raw (c : Char)
  | byte (b : Nat)
deriving DecidableEq

/-- First pass of `decodeURIComponent`: each `%XX` escape becomes a byte
token, every other character a raw token; fails on a `%` not followed by
two hexadecimal digits. -/
def tokenize : JStr → Option (List Tok)
  | [] => some []
  | c :: rest =>
    if c = '%' then
      match rest with
      | h1 :: h2 :: rest2 =>
        match hexVal? h1, hexVal? h2 with
        | some a, some b => (tokenize rest2).map (fun ts => Tok.byte (16 * a + b) :: ts)
        | _, _ => none
      | _ => none
    else (tokenize rest).map (fun ts => Tok.raw c :: ts)

/-- Second pass of `decodeURIComponent`: strict UTF-8 decoding of the byte
tokens, one token per step. The first argument is the state of the multibyte
sequence in progress, if any: `some (rem, acc, minv)` means `rem` more
continuation bytes are expected, `acc` is the accumulated value so far and
`minv` the smallest code point the sequence is allowed to produce (rejecting
overlong encodings). Continuation bytes must come from escapes; raw
characters or the end of input inside a sequence, stray or out-of-range
start bytes, overlong encodings, surrogate code points and values beyond
`0x10FFFF` are all rejected, as JavaScript does. -/
def assembleGo : Option (Nat × Nat × Nat) → List Tok → Option JStr
  | none, [] => some []
  | some _, [] => none
  | none, Tok.raw c :: ts => (assembleGo none ts).map (fun t => c :: t)
  | some _, Tok.raw _ :: _ => none
  | none, Tok.byte b :: ts =>
    if b < 0x80 then (assembleGo none ts).map (fun t => Char.ofNat b :: t)
    else if b < 0xC2 then none
    else if b < 0xE0 then assembleGo (some (1, b - 0xC0, 0x80)) ts
    else if b < 0xF0 then assembleGo (some (2, b - 0xE0, 0x800)) ts
    else if b < 0xF5 then assembleGo (some (3, b - 0xF0, 0x10000)) ts
    else none
  | some (rem, acc, minv), Tok.byte b :: ts =>
    if 0x80 ≤ b ∧ b < 0xC0 then
      if rem ≤ 1 then
        if acc * 64 + (b - 0x80) < minv ∨
            (0xD800 ≤ acc * 64 + (b - 0x80) ∧ acc * 64 + (b - 0x80) < 0xE000) ∨
            0x110000 ≤ acc * 64 + (b - 0x80) then none
        else (assembleGo none ts).map (fun t => Char.ofNat (acc * 64 + (b - 0x80)) :: t)
      else assembleGo (some (rem - 1, acc * 64 + (b - 0x80), minv)) ts
    else none

/-- UTF-8 decoding of a full token list, starting outside any sequence. -/
def assemble (ts : List Tok) : Option JStr := assembleGo none ts

/-- JavaScript `decodeURIComponent`; `none` models a thrown `URIError`. -/
def decodeURIComponent (s : JStr) : Option JStr := (tokenize s).bind assemble

/-! ## Data model -/

/-- Application mode of a locator (`symbols.js` constants). -/
inductive Mode where
  | start
  | setup
  | org
deriving DecidableEq

/-- Result of `parsePreferences`: the optional preferences sub-path and the
(at most single-entry) parameter map, as an association list. -/
structure Preferences where
  path : Option JStr
  params : List (JStr × JStr)
deriving DecidableEq

/-- Argument of the `history.replace` call issued for `.aragonid.eth` URLs:
the rewritten pathname, the unchanged search string, and the
`state.alreadyParsed` flag. -/
structure HistoryReplace where
  pathname : JStr
  search : JStr
  alreadyParsed : Bool
deriving DecidableEq

/-- Locator object returned by `parsePath`; one constructor per mode, each
carrying exactly the fields the source puts on the returned object.
`Option JStr` fields model values that may be `undefined`/`null`. -/
inductive Locator where
  | start (path : JStr) (action : Option JStr)
  | setup (path : JStr) (step : Option JStr) (parts : List JStr)
  | org (path : JStr) (dao : JStr) (instanceId : JStr) (params : Option JStr)
        (parts : List JStr) (preferences : Preferences)
deriving DecidableEq

/-- Mode of a locator. -/
def Locator.mode : Locator → Mode
  | .start _ _ => Mode.start
  | .setup _ _ _ => Mode.setup
  | .org _ _ _ _ _ _ => Mode.org

/-- The `dao` field of an organization-mode locator. -/
def Locator.dao? : Locator → Option JStr
  | .org _ dao _ _ _ _ => some dao
  | _ => none

/-- The `instanceId` field of an organization-mode locator. -/
def Locator.instanceId? : Locator → Option JStr
  | .org _ _ instanceId _ _ _ => some instanceId
  | _ => none

/-- The `params` field of an organization-mode locator (`none` both for
`params = null` and for non-organization locators). -/
def Locator.params? : Locator → Option JStr
  | .org _ _ _ params _ _ => params
  | _ => none

/-- Full result of `parsePath`: the returned locator together with the
`history.replace` request, if one was issued. -/
structure ParseResult where
  locator : Locator
  redirect : Option HistoryReplace
deriving DecidableEq

/-! ## The source functions -/

/-- The constant `ARAGONID_ENS_DOMAIN = 'aragonid.eth'`. -/
def ARAGONID_ENS_DOMAIN : JStr := jstr "aragonid.eth"

/-- The constant `GLOBAL_PREFERENCES_QUERY_PARAM = '?preferences=/'`. -/
def GLOBAL_PREFERENCES_QUERY_PARAM : JStr := jstr "?preferences=/"

/-- The constant `GLOBAL_PREFERENCES_SHARE_LINK_QUERY_VAR = '&labels='`. -/
def GLOBAL_PREFERENCES_SHARE_LINK_QUERY_VAR : JStr := jstr "&labels="

/-- JavaScript string truthiness for a possibly-undefined string value:
`undefined` and the empty string are falsy. -/
def truthy : Option JStr → Bool
  | none => false
  | some [] => false
  | some (_ :: _) => true

/-- First step of `parsePreferences`: the raw preferences string.
`search && search.split(q)` evaluates to `""` when `search` is empty;
destructuring `[, raw = '']` takes element 1 of the split with default
`''`. -/
def prefRaw (search : JStr) : JStr :=
  if search = [] then [] else (jsSplitGet1 GLOBAL_PREFERENCES_QUERY_PARAM search).getD []

/-- The `parsePreferences` function: destructure `raw.split('&labels=')`
into `path` and `labels`. The destructuring default `null` for `path` is
unreachable because `split` always yields a first element, so `path` is
always a defined (possibly empty) string. -/
def parsePreferences (search : JStr) : Preferences :=
  let raw : JStr := prefRaw search
  let path : Option JStr := some (jsSplitGet0 GLOBAL_PREFERENCES_SHARE_LINK_QUERY_VAR raw)
  let labels : Option JStr := jsSplitGet1 GLOBAL_PREFERENCES_SHARE_LINK_QUERY_VAR raw
  let params : List (JStr × JStr) :=
    match labels with
    | some l => if l = [] then [] else [(GLOBAL_PREFERENCES_SHARE_LINK_QUERY_VAR, l)]
    | none => []
  ⟨path, params⟩

/-- The `dao` value of the organization branch: `dao += '.aragonid.eth'`
when the segment is neither a valid address nor a valid ENS name, the
segment unchanged otherwise. -/
def orgDao (validAddress validDomain : Bool) (dao0 : JStr) : JStr :=
  if !validAddress && !validDomain then dao0 ++ '.' :: ARAGONID_ENS_DOMAIN else dao0

/-- The `history.replace` request of the organization branch: issued exactly
when the segment passed a validator and is a valid domain ending in
`aragonid.eth`; the new pathname has the first occurrence of
`.aragonid.eth` removed and the search string is kept. -/
def orgRedirect (validAddress validDomain : Bool) (pathname search dao0 : JStr) :
    Option HistoryReplace :=
  if !validAddress && !validDomain then none
  else if validDomain && jsEndsWith ARAGONID_ENS_DOMAIN dao0 then
    some ⟨jsReplaceFirst ('.' :: ARAGONID_ENS_DOMAIN) [] pathname, search, true⟩
  else none

/-- The raw `p` query parameter: `search && search.split('?p=')[1]`, with
`none` for both the `undefined` and the falsy-empty-search outcomes. -/
def extractRawParams (search : JStr) : Option JStr :=
  if search = [] then none else jsSplitGet1 (jstr "?p=") search

/-- The decoded `params` value: `decodeURIComponent` of the raw parameter
when it is truthy, with a decoding failure caught and turned into `null`. -/
def extractParams (search : JStr) : Option JStr :=
  match extractRawParams search with
  | some r => if r = [] then none else decodeURIComponent r
  | none => none

/-- The `instanceId` of the organization branch: `parts[1] || 'home'`. -/
def orgInstanceId (parts : List JStr) : JStr :=
  match parts.get? 1 with
  | some i => if i = [] then jstr "home" else i
  | none => jstr "home"

/-- The `parsePath` function. The `history` handle is replaced by the
`redirect` component of the result; `isAddress` and `isValidEnsName` are the
injected validators from `web3-utils`. -/
def parsePath (isAddress isValidEnsName : JStr → Bool) (pathname search : JStr) :
    ParseResult :=
  let path := pathname ++ search
  let parts := (splitChar '/' pathname).tail
  let p0 := parts.head?
  if !truthy p0 || p0 == some (jstr "open") || p0 == some (jstr "create") then
    ⟨Locator.start path p0, none⟩
  else if p0 == some (jstr "setup") then
    ⟨Locator.setup path (parts.get? 1) (parts.drop 2), none⟩
  else
    let dao0 := p0.getD []
    let validAddress := isAddress dao0
    let validDomain := isValidEnsName dao0
    ⟨Locator.org path (orgDao validAddress validDomain dao0) (orgInstanceId parts)
        (extractParams search) (parts.drop 2) (parsePreferences search),
      orgRedirect validAddress validDomain pathname search dao0⟩

/-- The `getAppPath` function. The static application registry is the
injected `staticApps` map, modelled as a partial lookup from instance
identifiers to their `route` strings. `substr(0, indexOf - 1)` strips the
domain together with the separating dot. -/
def getAppPath (staticApps : JStr → Option JStr) (fullDao instanceId : JStr)
    (params : Option JStr) : JStr :=
  let dao :=
    match splitFirst ARAGONID_ENS_DOMAIN fullDao with
    | some (pre, _) => fullDao.take (pre.length - 1)
    | none => fullDao
  let paramsPart :=
    match params with
    | some p => if p = [] then [] else jstr "?p=" ++ encodeURIComponent p
    | none => []
  match staticApps instanceId with
  | some route => '/' :: (dao ++ route ++ paramsPart)
  | none => '/' :: (dao ++ '/' :: (instanceId ++ paramsPart))

/-- Decomposition of a combined path-plus-query string into the pathname and
search components a browser location would deliver: the search part starts
at the first `?`. -/
def splitLocation (url : JStr) : JStr × JStr :=
  match splitFirst ['?'] url with
  | none => (url, [])
  | some (pre, post) => (pre, '?' :: post)

/-! ## Auxiliary definitions for the verification -/

/-- Token list produced by tokenizing the encoding of one character. -/
def encToks (c : Char) : List Tok :=
  if isUnreservedURI c then [Tok.raw c] else (utf8Bytes c.toNat).map Tok.byte

/-- Token list produced by tokenizing the encoding of a string. -/
def encToksList : JStr → List Tok
  | [] => []
  | c :: s => encToks c ++ encToksList s

/-- Characters that can appear in the output of `encodeURIComponent`. -/
def encOK (c : Char) : Bool :=
  isUnreservedURI c || c = '%' || ('0' ≤ c && c ≤ '9') || ('A' ≤ c && c ≤ 'F')

/-- Well-formedness of a single path segment: non-empty and free of the
path and query delimiters. -/
abbrev segmentLike (s : JStr) : Prop := s ≠ [] ∧ '/' ∉ s ∧ '?' ∉ s

/-- Syntactic shape of a blockchain address as used for a `dao` field: a
well-formed segment that does not contain the `aragonid.eth` domain and is
not one of the reserved first segments. -/
abbrev addressLike (s : JStr) : Prop :=
  segmentLike s ∧ splitFirst ARAGONID_ENS_DOMAIN s = none ∧
  s ≠ jstr "open" ∧ s ≠ jstr "create" ∧ s ≠ jstr "setup"

/-- Syntactic shape of a bare name-service label: a well-formed dot-free
segment that is not one of the reserved first segments. -/
abbrev labelLike (s : JStr) : Prop :=
  s ≠ [] ∧ '/' ∉ s ∧ '?' ∉ s ∧ '.' ∉ s ∧
  s ≠ jstr "open" ∧ s ≠ jstr "create" ∧ s ≠ jstr "setup"

/-! ## Lemmas about the string primitives -/

theorem leadsWith_nil (pat : JStr) (h : leadsWith pat [] = true) : pat = [] := by
  cases pat with
  | nil => rfl
  | cons c cs => simp [leadsWith] at h

theorem leadsWith_append (pat t : JStr) : leadsWith pat (pat ++ t) = true := by
  induction pat with
  | nil => simp [leadsWith]
  | cons c cs ih => simp [leadsWith, ih]

theorem leadsWith_iff (pat s : JStr) : leadsWith pat s = true ↔ ∃ r, s = pat ++ r := by
  constructor
  · intro h
    induction pat generalizing s with
    | nil => exact ⟨s, rfl⟩
    | cons c cs ih =>
      cases s with
      | nil => simp [leadsWith] at h
      | cons x xs =>
        simp only [leadsWith, Bool.and_eq_true, decide_eq_true_eq] at h
        obtain ⟨rfl, h2⟩ := h
        obtain ⟨r, rfl⟩ := ih xs h2
        exact ⟨r, rfl⟩
  · rintro ⟨r, rfl⟩
    exact leadsWith_append pat r

theorem splitFirst_of_leads (pat s : JStr) (h : leadsWith pat s = true) :
    splitFirst pat s = some ([], s.drop pat.length) := by
  cases s with
  | nil =>
    have := leadsWith_nil pat h
    subst this
    simp [splitFirst, leadsWith]
  | cons c s => simp [splitFirst, h]

theorem splitFirst_self_append (pat t : JStr) : splitFirst pat (pat ++ t) = some ([], t) := by
  rw [splitFirst_of_leads pat (pat ++ t) (leadsWith_append pat t)]
  simp [List.drop_left]

theorem splitFirst_head_not_mem (c : Char) (cs s : JStr) (h : c ∉ s) :
    splitFirst (c :: cs) s = none := by
  induction s with
  | nil => simp [splitFirst, leadsWith]
  | cons x xs ih =>
    have hcx : c ≠ x := fun he => h (he ▸ List.mem_cons_self x xs)
    have hlead : leadsWith (c :: cs) (x :: xs) = false := by
      simp [leadsWith, hcx]
    rw [splitFirst, hlead]
    simp only [Bool.false_eq_true, if_false]
    rw [ih (fun hm => h (List.mem_cons_of_mem x hm))]
    rfl

theorem splitFirst_single (q : Char) (xs ys : JStr) (h : q ∉ xs) :
    splitFirst [q] (xs ++ q :: ys) = some (xs, ys) := by
  induction xs with
  | nil =>
    have : leadsWith [q] (q :: ys) = true := by simp [leadsWith]
    rw [List.nil_append, splitFirst_of_leads _ _ this]
    rfl
  | cons x xs ih =>
    have hqx : q ≠ x := fun he => h (he ▸ List.mem_cons_self x xs)
    have hlead : leadsWith [q] (x :: (xs ++ q :: ys)) = false := by
      simp [leadsWith, hqx]
    rw [List.cons_append, splitFirst, hlead]
    simp only [Bool.false_eq_true, if_false]
    rw [ih (fun hm => h (List.mem_cons_of_mem x hm))]
    rfl

theorem splitFirst_isSome_of_ends (pat u : JStr) :
    (splitFirst pat (u ++ pat)).isSome = true := by
  induction u with
  | nil =>
    have h := splitFirst_self_append pat []
    rw [List.append_nil] at h
    rw [List.nil_append, h]
    rfl
  | cons c u ih =>
    rw [List.cons_append, splitFirst]
    by_cases h : leadsWith pat (c :: (u ++ pat)) = true
    · simp [h]
    · simp only [Bool.not_eq_true] at h
      simp only [h, Bool.false_eq_true, if_false]
      obtain ⟨pr, hpr⟩ := Option.isSome_iff_exists.mp ih
      simp [hpr]

theorem jsEndsWith_exists (pat s : JStr) (h : jsEndsWith pat s = true) :
    ∃ u, s = u ++ pat := by
  unfold jsEndsWith at h
  obtain ⟨r, hr⟩ := (leadsWith_iff _ _).mp h
  have hlen : (s.drop (s.length - pat.length)).length ≤ pat.length := by
    simp only [List.length_drop]
    omega
  have hlen2 : (s.drop (s.length - pat.length)).length = pat.length + r.length := by
    rw [hr, List.length_append]
  have hrnil : r = [] := by
    have : r.length = 0 := by omega
    exact List.length_eq_zero.mp this
  subst hrnil
  refine ⟨s.take (s.length - pat.length), ?_⟩
  rw [List.append_nil] at hr
  conv_lhs => rw [← List.take_append_drop (s.length - pat.length) s]
  rw [hr]

theorem jsEndsWith_false_of_no_occurrence (pat s : JStr)
    (h : splitFirst pat s = none) : jsEndsWith pat s = false := by
  by_contra hc
  simp only [Bool.not_eq_false] at hc
  obtain ⟨u, rfl⟩ := jsEndsWith_exists pat s hc
  have := splitFirst_isSome_of_ends pat u
  rw [h] at this
  simp at this

theorem splitChar_not_mem (c : Char) (s : JStr) (h : c ∉ s) : splitChar c s = [s] := by
  induction s with
  | nil => rfl
  | cons x xs ih =>
    have hxc : x ≠ c := fun he => h (he ▸ List.mem_cons_self x xs)
    rw [splitChar, if_neg hxc, ih (fun hm => h (List.mem_cons_of_mem x hm))]

theorem splitChar_append (c : Char) (xs ys : JStr) (h : c ∉ xs) :
    splitChar c (xs ++ c :: ys) = xs :: splitChar c ys := by
  induction xs with
  | nil => simp [splitChar]
  | cons x xs ih =>
    have hxc : x ≠ c := fun he => h (he ▸ List.mem_cons_self x xs)
    rw [List.cons_append, splitChar, if_neg hxc,
      ih (fun hm => h (List.mem_cons_of_mem x hm))]

/-! ## Lemmas about percent encoding and decoding -/

theorem char_toNat_bounds (c : Char) :
    c.toNat < 0x110000 ∧ ¬ (0xD800 ≤ c.toNat ∧ c.toNat < 0xE000) := by
  have h := c.valid
  simp only [Char.toNat]
  rcases h with h | h
  · exact ⟨by omega, by omega⟩
  · exact ⟨by omega, by omega⟩

theorem hexVal_hexDigitUpper : ∀ n, n < 16 → hexVal? (hexDigitUpper n) = some n := by decide

theorem hexDigitUpper_encOK : ∀ n, n < 16 → encOK (hexDigitUpper n) = true := by decide

theorem utf8Bytes_lt (n : Nat) (hn : n < 0x110000) : ∀ b ∈ utf8Bytes n, b < 256 := by
  intro b hb
  by_cases h1 : n < 0x80
  · simp only [utf8Bytes] at hb
    rw [if_pos h1] at hb
    simp only [List.mem_singleton] at hb
    omega
  · by_cases h2 : n < 0x800
    · simp only [utf8Bytes] at hb
      rw [if_neg h1, if_pos h2] at hb
      simp only [List.mem_cons, List.not_mem_nil, or_false] at hb
      rcases hb with rfl | rfl <;> omega
    · by_cases h3 : n < 0x10000
      · simp only [utf8Bytes] at hb
        rw [if_neg h1, if_neg h2, if_pos h3] at hb
        simp only [List.mem_cons, List.not_mem_nil, or_false] at hb
        rcases hb with rfl | rfl | rfl <;> omega
      · simp only [utf8Bytes] at hb
        rw [if_neg h1, if_neg h2, if_neg h3] at hb
        simp only [List.mem_cons, List.not_mem_nil, or_false] at hb
        rcases hb with rfl | rfl | rfl | rfl <;> omega

theorem tokenize_cons_raw (c : Char) (t : JStr) (h : ¬ c = '%') :
    tokenize (c :: t) = (tokenize t).map (fun ts => Tok.raw c :: ts) := by
  cases t with
  | nil => simp [tokenize, h]
  | cons x xs =>
    cases xs with
    | nil => simp [tokenize, h]
    | cons y ys => simp [tokenize, h]

theorem tokenize_pct (b : Nat) (hb : b < 256) (t : JStr) :
    tokenize ('%' :: hexDigitUpper (b / 16) :: hexDigitUpper (b % 16) :: t) =
      (tokenize t).map (fun ts => Tok.byte b :: ts) := by
  have e1 : hexVal? (hexDigitUpper (b / 16)) = some (b / 16) :=
    hexVal_hexDigitUpper _ (by omega)
  have e2 : hexVal? (hexDigitUpper (b % 16)) = some (b % 16) :=
    hexVal_hexDigitUpper _ (by omega)
  rw [tokenize, if_pos rfl]
  simp only [e1, e2]
  rw [show 16 * (b / 16) + b % 16 = b from by omega]

theorem isUnreservedURI_ne_pct (c : Char) (h : isUnreservedURI c = true) : ¬ c = '%' := by
  intro he
  subst he
  exact absurd h (by decide)

theorem tokenize_percentBytes (bs : List Nat) (hbs : ∀ b ∈ bs, b < 256) (t : JStr) :
    tokenize (percentBytes bs ++ t) = (tokenize t).map (fun ts => bs.map Tok.byte ++ ts) := by
  induction bs with
  | nil => simp [percentBytes]
  | cons b bs ih =>
    have hb : b < 256 := hbs b (List.mem_cons_self _ _)
    rw [percentBytes, List.cons_append, List.cons_append, List.cons_append,
      tokenize_pct b hb (percentBytes bs ++ t),
      ih (fun x hx => hbs x (List.mem_cons_of_mem _ hx)), Option.map_map]
    rfl

theorem tokenize_encodeChar (c : Char) (t : JStr) :
    tokenize (encodeChar c ++ t) = (tokenize t).map (fun ts => encToks c ++ ts) := by
  by_cases hu : isUnreservedURI c = true
  · rw [encodeChar, if_pos hu, List.singleton_append,
      tokenize_cons_raw c t (isUnreservedURI_ne_pct c hu)]
    simp [encToks, hu]
  · rw [encodeChar, if_neg hu,
      tokenize_percentBytes _ (utf8Bytes_lt c.toNat (char_toNat_bounds c).1) t]
    simp [encToks, hu]

theorem tokenize_encode_append (s t : JStr) :
    tokenize (encodeURIComponent s ++ t) = (tokenize t).map (fun ts => encToksList s ++ ts) := by
  induction s with
  | nil => simp [encodeURIComponent, encToksList]
  | cons c s ih =>
    rw [encodeURIComponent, List.append_assoc, tokenize_encodeChar, ih, Option.map_map]
    have hf : ((fun ts => encToks c ++ ts) ∘ fun ts => encToksList s ++ ts) =
        fun ts => encToksList (c :: s) ++ ts := by
      funext ts
      show encToks c ++ (encToksList s ++ ts) = encToksList (c :: s) ++ ts
      rw [encToksList, List.append_assoc]
    rw [hf]

theorem assembleGo_raw (c : Char) (ts : List Tok) :
    assembleGo none (Tok.raw c :: ts) = (assembleGo none ts).map (fun t => c :: t) := by
  rw [assembleGo]

theorem assemble_encToks (c : Char) (ts : List Tok) :
    assembleGo none (encToks c ++ ts) = (assembleGo none ts).map (fun t => c :: t) := by
  by_cases hu : isUnreservedURI c = true
  · rw [encToks, if_pos hu, List.singleton_append, assembleGo_raw]
  · have hb := char_toNat_bounds c
    have hs := hb.2
    have hofn : Char.ofNat c.toNat = c := Char.ofNat_toNat c
    rw [encToks, if_neg hu]
    by_cases h1 : c.toNat < 0x80
    · rw [show utf8Bytes c.toNat = [c.toNat] from by
        simp only [utf8Bytes]; rw [if_pos h1]]
      simp only [List.map_cons, List.map_nil, List.singleton_append]
      rw [assembleGo, if_pos h1, hofn]
    · by_cases h2 : c.toNat < 0x800
      · rw [show utf8Bytes c.toNat = [0xC0 + c.toNat / 64, 0x80 + c.toNat % 64] from by
          simp only [utf8Bytes]; rw [if_neg h1, if_pos h2]]
        simp only [List.map_cons, List.map_nil, List.cons_append, List.nil_append]
        rw [assembleGo,
          if_neg (by omega : ¬ 0xC0 + c.toNat / 64 < 0x80),
          if_neg (by omega : ¬ 0xC0 + c.toNat / 64 < 0xC2),
          if_pos (by omega : 0xC0 + c.toNat / 64 < 0xE0)]
        rw [assembleGo,
          if_pos (by omega : 0x80 ≤ 0x80 + c.toNat % 64 ∧ 0x80 + c.toNat % 64 < 0xC0),
          if_pos (by omega : (1 : Nat) ≤ 1),
          show (0xC0 + c.toNat / 64 - 0xC0) * 64 + (0x80 + c.toNat % 64 - 0x80) = c.toNat from
            by omega,
          if_neg (by omega :
            ¬ (c.toNat < 0x80 ∨ (0xD800 ≤ c.toNat ∧ c.toNat < 0xE000) ∨ 0x110000 ≤ c.toNat)),
          hofn]
      · by_cases h3 : c.toNat < 0x10000
        · rw [show utf8Bytes c.toNat =
              [0xE0 + c.toNat / 4096, 0x80 + c.toNat / 64 % 64, 0x80 + c.toNat % 64] from by
            simp only [utf8Bytes]; rw [if_neg h1, if_neg h2, if_pos h3]]
          simp only [List.map_cons, List.map_nil, List.cons_append, List.nil_append]
          rw [assembleGo,
            if_neg (by omega : ¬ 0xE0 + c.toNat / 4096 < 0x80),
            if_neg (by omega : ¬ 0xE0 + c.toNat / 4096 < 0xC2),
            if_neg (by omega : ¬ 0xE0 + c.toNat / 4096 < 0xE0),
            if_pos (by omega : 0xE0 + c.toNat / 4096 < 0xF0)]
          rw [assembleGo,
            if_pos (by omega :
              0x80 ≤ 0x80 + c.toNat / 64 % 64 ∧ 0x80 + c.toNat / 64 % 64 < 0xC0),
            if_neg (by omega : ¬ (2 : Nat) ≤ 1)]
          rw [assembleGo,
            if_pos (by omega : 0x80 ≤ 0x80 + c.toNat % 64 ∧ 0x80 + c.toNat % 64 < 0xC0),
            if_pos (by omega : (2 : Nat) - 1 ≤ 1),
            show ((0xE0 + c.toNat / 4096 - 0xE0) * 64 + (0x80 + c.toNat / 64 % 64 - 0x80)) * 64 +
                (0x80 + c.toNat % 64 - 0x80) = c.toNat from by omega,
            if_neg (by omega :
              ¬ (c.toNat < 0x800 ∨ (0xD800 ≤ c.toNat ∧ c.toNat < 0xE000) ∨
                0x110000 ≤ c.toNat)),
            hofn]
        · rw [show utf8Bytes c.toNat =
              [0xF0 + c.toNat / 262144, 0x80 + c.toNat / 4096 % 64,
               0x80 + c.toNat / 64 % 64, 0x80 + c.toNat % 64] from by
            simp only [utf8Bytes]; rw [if_neg h1, if_neg h2, if_neg h3]]
          simp only [List.map_cons, List.map_nil, List.cons_append, List.nil_append]
          have hlt := hb.1
          rw [assembleGo,
            if_neg (by omega : ¬ 0xF0 + c.toNat / 262144 < 0x80),
            if_neg (by omega : ¬ 0xF0 + c.toNat / 262144 < 0xC2),
            if_neg (by omega : ¬ 0xF0 + c.toNat / 262144 < 0xE0),
            if_neg (by omega : ¬ 0xF0 + c.toNat / 262144 < 0xF0),
            if_pos (by omega : 0xF0 + c.toNat / 262144 < 0xF5)]
          rw [assembleGo,
            if_pos (by omega :
              0x80 ≤ 0x80 + c.toNat / 4096 % 64 ∧ 0x80 + c.toNat / 4096 % 64 < 0xC0),
            if_neg (by omega : ¬ (3 : Nat) ≤ 1)]
          rw [assembleGo,
            if_pos (by omega :
              0x80 ≤ 0x80 + c.toNat / 64 % 64 ∧ 0x80 + c.toNat / 64 % 64 < 0xC0),
            if_neg (by omega : ¬ (3 : Nat) - 1 ≤ 1)]
          rw [assembleGo,
            if_pos (by omega : 0x80 ≤ 0x80 + c.toNat % 64 ∧ 0x80 + c.toNat % 64 < 0xC0),
            if_pos (by omega : (3 : Nat) - 1 - 1 ≤ 1),
            show (((0xF0 + c.toNat / 262144 - 0xF0) * 64 + (0x80 + c.toNat / 4096 % 64 - 0x80)) *
                  64 + (0x80 + c.toNat / 64 % 64 - 0x80)) * 64 + (0x80 + c.toNat % 64 - 0x80) =
                c.toNat from by omega,
            if_neg (by omega :
              ¬ (c.toNat < 0x10000 ∨ (0xD800 ≤ c.toNat ∧ c.toNat < 0xE000) ∨
                0x110000 ≤ c.toNat)),
            hofn]

theorem assemble_encToksList (s : JStr) (ts : List Tok) :
    assembleGo none (encToksList s ++ ts) = (assembleGo none ts).map (fun t => s ++ t) := by
  induction s with
  | nil =>
    rw [encToksList, List.nil_append]
    cases h : assembleGo none ts with
    | none => rfl
    | some t => rfl
  | cons c s ih =>
    rw [encToksList, List.append_assoc, assemble_encToks, ih, Option.map_map]
    rfl

theorem decodeURIComponent_encode (s : JStr) :
    decodeURIComponent (encodeURIComponent s) = some s := by
  have h1 : tokenize (encodeURIComponent s) = some (encToksList s) := by
    have h := tokenize_encode_append s []
    rw [List.append_nil] at h
    rw [h, show tokenize [] = some [] from rfl]
    simp
  have h2 : assembleGo none (encToksList s) = some s := by
    have h := assemble_encToksList s []
    rw [List.append_nil] at h
    rw [h, show assembleGo none ([] : List Tok) = some [] from rfl]
    simp
  unfold decodeURIComponent
  rw [h1]
  show assemble (encToksList s) = some s
  rw [assemble, h2]

theorem mem_percentBytes (bs : List Nat) (hbs : ∀ b ∈ bs, b < 256) (c : Char)
    (h : c ∈ percentBytes bs) : c = '%' ∨ ∃ x, x < 16 ∧ c = hexDigitUpper x := by
  induction bs with
  | nil => simp [percentBytes] at h
  | cons b bs ih =>
    have hb : b < 256 := hbs b (List.mem_cons_self _ _)
    rw [percentBytes] at h
    simp only [List.mem_cons] at h
    rcases h with rfl | rfl | rfl | h
    · exact Or.inl rfl
    · exact Or.inr ⟨b / 16, by omega, rfl⟩
    · exact Or.inr ⟨b % 16, by omega, rfl⟩
    · exact ih (fun x hx => hbs x (List.mem_cons_of_mem _ hx)) h

theorem mem_encode (s : JStr) (c : Char) (h : c ∈ encodeURIComponent s) : encOK c = true := by
  induction s with
  | nil => simp [encodeURIComponent] at h
  | cons d s ih =>
    rw [encodeURIComponent] at h
    rcases List.mem_append.mp h with h | h
    · by_cases hu : isUnreservedURI d = true
      · rw [encodeChar, if_pos hu] at h
        simp only [List.mem_singleton] at h
        subst h
        simp [encOK, hu]
      · rw [encodeChar, if_neg hu] at h
        rcases mem_percentBytes _ (utf8Bytes_lt d.toNat (char_toNat_bounds d).1) c h with
          rfl | ⟨x, hx, rfl⟩
        · decide
        · exact hexDigitUpper_encOK x hx
    · exact ih h

theorem qmark_not_mem_encode (s : JStr) : '?' ∉ encodeURIComponent s := by
  intro h
  exact absurd (mem_encode s '?' h) (by decide)

theorem slash_not_mem_encode (s : JStr) : '/' ∉ encodeURIComponent s := by
  intro h
  exact absurd (mem_encode s '/' h) (by decide)

theorem encode_ne_nil (s : JStr) (h : s ≠ []) : encodeURIComponent s ≠ [] := by
  cases s with
  | nil => exact absurd rfl h
  | cons c s =>
    rw [encodeURIComponent]
    intro he
    have h1 : encodeChar c = [] := (List.append_eq_nil.mp he).1
    by_cases hu : isUnreservedURI c = true
    · rw [encodeChar, if_pos hu] at h1
      exact List.cons_ne_nil _ _ h1
    · rw [encodeChar, if_neg hu] at h1
      have hne : utf8Bytes c.toNat ≠ [] := by
        simp only [utf8Bytes]
        split_ifs <;> simp
      cases hb : utf8Bytes c.toNat with
      | nil => exact hne hb
      | cons b bs =>
        rw [hb, percentBytes] at h1
        exact List.cons_ne_nil _ _ h1

/-! ## Lemmas about occurrences of the aragonid domain -/

theorem aragonid_length : ARAGONID_ENS_DOMAIN.length = 12 := by decide

theorem aragonid_not_leads (s : JStr) (h : '.' ∉ s) :
    leadsWith ARAGONID_ENS_DOMAIN (s ++ '.' :: ARAGONID_ENS_DOMAIN) = false := by
  by_contra hc
  simp only [Bool.not_eq_false] at hc
  obtain ⟨r, hr⟩ := (leadsWith_iff _ _).mp hc
  have htake : ARAGONID_ENS_DOMAIN = (s ++ '.' :: ARAGONID_ENS_DOMAIN).take 12 := by
    rw [hr, show (12 : Nat) = ARAGONID_ENS_DOMAIN.length from rfl, List.take_left]
  rw [List.take_append_eq_append_take] at htake
  cases Nat.lt_or_ge s.length 12 with
  | inr h12 =>
    rw [show 12 - s.length = 0 from by omega] at htake
    simp only [List.take_zero, List.append_nil] at htake
    have hmem : '.' ∈ ARAGONID_ENS_DOMAIN := by decide
    rw [htake] at hmem
    exact h (List.take_subset _ _ hmem)
  | inl h12 =>
    rw [List.take_of_length_le (by omega : s.length ≤ 12),
      show 12 - s.length = (11 - s.length) + 1 from by omega, List.take_succ_cons] at htake
    have hd : ARAGONID_ENS_DOMAIN.drop s.length =
        '.' :: ARAGONID_ENS_DOMAIN.take (11 - s.length) := by
      conv_lhs => rw [htake]
      rw [show s ++ '.' :: ARAGONID_ENS_DOMAIN.take (11 - s.length) =
          s ++ ('.' :: ARAGONID_ENS_DOMAIN.take (11 - s.length)) from rfl, List.drop_left]
    have hk : s.length = 8 := by
      have hh : (ARAGONID_ENS_DOMAIN.drop s.length).head? = some '.' := by rw [hd]; rfl
      exact (by decide :
        ∀ k, k < 12 → ((ARAGONID_ENS_DOMAIN.drop k).head? = some '.') → k = 8)
        s.length h12 hh
    rw [hk] at hd
    exact absurd hd (by decide)

theorem splitFirst_dot_label (s : JStr) (h : '.' ∉ s) :
    splitFirst ARAGONID_ENS_DOMAIN (s ++ '.' :: ARAGONID_ENS_DOMAIN) =
      some (s ++ ['.'], []) := by
  induction s with
  | nil => decide
  | cons c s ih =>
    have hlead := aragonid_not_leads (c :: s) h
    rw [List.cons_append] at hlead
    rw [List.cons_append, splitFirst, hlead]
    simp only [Bool.false_eq_true, if_false]
    rw [ih (fun hm => h (List.mem_cons_of_mem c hm))]
    rfl

/-! ## Evaluation of the organization branch of parsePath -/

theorem parsePath_org (iA iV : JStr → Bool) (pathname search : JStr) (x d : JStr)
    (rest : List JStr) (hsplit : splitChar '/' pathname = x :: d :: rest)
    (h0 : d ≠ []) (h1 : d ≠ jstr "open") (h2 : d ≠ jstr "create") (h3 : d ≠ jstr "setup") :
    parsePath iA iV pathname search =
      ⟨Locator.org (pathname ++ search) (orgDao (iA d) (iV d) d) (orgInstanceId (d :: rest))
          (extractParams search) (rest.drop 1) (parsePreferences search),
        orgRedirect (iA d) (iV d) pathname search d⟩ := by
  have htr : truthy (some d) = true := by
    cases d with
    | nil => exact absurd rfl h0
    | cons c cs => rfl
  have e1 : (some d == some (jstr "open")) = false := by
    simp only [beq_eq_false_iff_ne, ne_eq, Option.some.injEq]
    exact h1
  have e2 : (some d == some (jstr "create")) = false := by
    simp only [beq_eq_false_iff_ne, ne_eq, Option.some.injEq]
    exact h2
  have e3 : (some d == some (jstr "setup")) = false := by
    simp only [beq_eq_false_iff_ne, ne_eq, Option.some.injEq]
    exact h3
  unfold parsePath
  rw [hsplit]
  simp only [List.tail_cons, List.head?_cons, htr, e1, e2, e3, Bool.not_true, Bool.or_false,
    Bool.false_or, Bool.false_eq_true, if_false, Option.getD_some, List.drop_succ_cons,
    List.drop_one]

/-! ## The claims -/

/-- C8: for every pathname that is empty, `/`, `/open`, or `/create`, and any
search string and validators, `parsePath` returns a start-mode locator whose
`action` field is the matched first segment (`open` or `create`), the empty
string for `/`, and undefined for the empty pathname; no redirect is
issued. -/
theorem claim_C8 (iA iV : JStr → Bool) (search : JStr) :
    parsePath iA iV (jstr "") search = ⟨Locator.start (jstr "" ++ search) none, none⟩ ∧
    parsePath iA iV (jstr "/") search =
      ⟨Locator.start (jstr "/" ++ search) (some []), none⟩ ∧
    parsePath iA iV (jstr "/open") search =
      ⟨Locator.start (jstr "/open" ++ search) (some (jstr "open")), none⟩ ∧
    parsePath iA iV (jstr "/create") search =
      ⟨Locator.start (jstr "/create" ++ search) (some (jstr "create")), none⟩ :=
  ⟨rfl, rfl, rfl, rfl⟩

/-- C7: whenever the first path segment is the literal `setup`, `parsePath`
returns a setup-mode locator (never an organization one) whose `step` is the
second segment, or null when absent, and whose `parts` are the remaining
segments. -/
theorem claim_C7 (iA iV : JStr → Bool) (pathname search : JStr) (x : JStr)
    (rest : List JStr) (hsplit : splitChar '/' pathname = x :: jstr "setup" :: rest) :
    parsePath iA iV pathname search =
      ⟨Locator.setup (pathname ++ search) rest.head? (rest.drop 1), none⟩ := by
  unfold parsePath
  rw [hsplit]
  simp only [List.tail_cons, List.head?_cons]
  rw [show truthy (some (jstr "setup")) = true from rfl,
    show (some (jstr "setup") == some (jstr "open")) = false from by decide,
    show (some (jstr "setup") == some (jstr "create")) = false from by decide,
    show (some (jstr "setup") == some (jstr "setup")) = true from by decide]
  simp only [Bool.not_true, Bool.or_false, Bool.false_or, Bool.false_eq_true, if_false,
    if_true, List.get?_cons_succ, List.get?_zero, List.drop_succ_cons, List.drop_one]

/-- C7 witness: `parsePath` on `/setup/2/foo` yields mode setup, step `2`,
parts `["foo"]`. -/
theorem claim_C7_witness :
    splitChar '/' (jstr "/setup/2/foo") = [[], jstr "setup", jstr "2", jstr "foo"] ∧
    parsePath (fun _ => false) (fun _ => false) (jstr "/setup/2/foo") [] =
      ⟨Locator.setup (jstr "/setup/2/foo" ++ []) (some (jstr "2")) [jstr "foo"], none⟩ :=
  ⟨by decide, by
    have h := claim_C7 (fun _ => false) (fun _ => false) (jstr "/setup/2/foo") [] []
      [jstr "2", jstr "foo"] (by decide)
    exact h.trans (by decide)⟩

/-- C5: whenever the first path segment is non-empty, not a reserved start or
setup segment, and fails both injected validators, `parsePath` returns an
organization-mode locator whose `dao` is the segment with `.aragonid.eth`
appended; when no second segment is given, `instanceId` is the sentinel
`home`. -/
theorem claim_C5 (iA iV : JStr → Bool) (pathname search : JStr) (x dao : JStr)
    (rest : List JStr) (hsplit : splitChar '/' pathname = x :: dao :: rest)
    (h0 : dao ≠ []) (h1 : dao ≠ jstr "open") (h2 : dao ≠ jstr "create")
    (h3 : dao ≠ jstr "setup") (ha : iA dao = false) (hv : iV dao = false) :
    (parsePath iA iV pathname search).locator.mode = Mode.org ∧
    (parsePath iA iV pathname search).locator.dao? =
      some (dao ++ '.' :: ARAGONID_ENS_DOMAIN) ∧
    (rest = [] →
      (parsePath iA iV pathname search).locator.instanceId? = some (jstr "home")) := by
  rw [parsePath_org iA iV pathname search x dao rest hsplit h0 h1 h2 h3]
  refine ⟨rfl, ?_, ?_⟩
  · simp [Locator.dao?, orgDao, ha, hv]
  · intro hrest
    subst hrest
    rfl

/-- C5 witness: `parsePath` on `/mydao` with validators rejecting the
segment yields mode org, dao `mydao.aragonid.eth`, instanceId `home`. -/
theorem claim_C5_witness :
    splitChar '/' (jstr "/mydao") = [[], jstr "mydao"] ∧
    ((parsePath (fun _ => false) (fun _ => false) (jstr "/mydao") []).locator.mode =
        Mode.org ∧
      (parsePath (fun _ => false) (fun _ => false) (jstr "/mydao") []).locator.dao? =
        some (jstr "mydao.aragonid.eth") ∧
      (parsePath (fun _ => false) (fun _ => false) (jstr "/mydao") []).locator.instanceId? =
        some (jstr "home")) :=
  ⟨by decide, by
    have h := claim_C5 (fun _ => false) (fun _ => false) (jstr "/mydao") [] [] (jstr "mydao")
      [] (by decide) (by decide) (by decide) (by decide) (by decide) rfl rfl
    exact ⟨h.1, h.2.1.trans (by decide), h.2.2 rfl⟩⟩

/-- C10: every organization-mode locator produced by `parsePath` has a
non-empty `instanceId`: a missing or empty second segment yields the
sentinel `home`, never the empty string. -/
theorem claim_C10 (iA iV : JStr → Bool) (pathname search : JStr) (i : JStr)
    (h : (parsePath iA iV pathname search).locator.instanceId? = some i) : i ≠ [] := by
  simp only [parsePath] at h
  split at h
  · simp [Locator.instanceId?] at h
  · split at h
    · simp [Locator.instanceId?] at h
    · simp only [Locator.instanceId?, Option.some.injEq] at h
      subst h
      unfold orgInstanceId
      split
      · split
        · intro hc
          exact absurd hc (by decide)
        · next hne => exact hne
      · intro hc
        exact absurd hc (by decide)

/-- C10 witness: `parsePath` on `/mydao//x` (empty second segment) yields
`instanceId = home`, which is non-empty. -/
theorem claim_C10_witness :
    (parsePath (fun _ => false) (fun _ => false) (jstr "/mydao//x") []).locator.instanceId? =
      some (jstr "home") ∧ jstr "home" ≠ [] :=
  ⟨by decide, claim_C10 (fun _ => false) (fun _ => false) (jstr "/mydao//x") [] (jstr "home")
    (by decide)⟩

/-- C6 counterexample: `parsePreferences` of the empty string returns
`path = ""` (a defined empty string), not `null` as the claim states. -/
theorem claim_C6_counterexample :
    (parsePreferences (jstr "")).path = some [] ∧ (some [] : Option JStr) ≠ none :=
  ⟨by decide, by decide⟩

/-- C6 amended: `parsePreferences("")` yields an empty `params` map and
`path` equal to the empty string rather than null; in general the `path`
field is always a defined string (the `null` destructuring default is
unreachable), so an empty portion before `&labels=` gives `path = ""`. -/
theorem claim_C6_amended :
    parsePreferences (jstr "") = ⟨some [], []⟩ ∧
    ∀ search : JStr, (parsePreferences search).path.isSome = true :=
  ⟨by decide, fun _ => rfl⟩

/-- C9: `parsePreferences("?preferences=/admin&labels=xyz")` yields
`path = "admin"` and a `params` map with exactly the key `&labels=` mapped
to `xyz`; and whenever no truthy labels string follows the `&labels=`
marker, `params` is empty. -/
theorem claim_C9 :
    parsePreferences (jstr "?preferences=/admin&labels=xyz") =
      ⟨some (jstr "admin"), [(GLOBAL_PREFERENCES_SHARE_LINK_QUERY_VAR, jstr "xyz")]⟩ ∧
    ∀ search : JStr,
      truthy (jsSplitGet1 GLOBAL_PREFERENCES_SHARE_LINK_QUERY_VAR (prefRaw search)) = false →
      (parsePreferences search).params = [] := by
  refine ⟨by decide, ?_⟩
  intro search h
  simp only [parsePreferences]
  cases hl : jsSplitGet1 GLOBAL_PREFERENCES_SHARE_LINK_QUERY_VAR (prefRaw search) with
  | none => rfl
  | some l =>
    cases l with
    | nil => rfl
    | cons c cs =>
      rw [hl] at h
      rw [show truthy (some (c :: cs)) = true from rfl] at h
      exact Bool.noConfusion h

/-- C9 witness: the concrete example from the claim, and a search string
whose labels portion is empty, for which `params` is empty. -/
theorem claim_C9_witness :
    parsePreferences (jstr "?preferences=/admin&labels=xyz") =
      ⟨some (jstr "admin"), [(GLOBAL_PREFERENCES_SHARE_LINK_QUERY_VAR, jstr "xyz")]⟩ ∧
    truthy (jsSplitGet1 GLOBAL_PREFERENCES_SHARE_LINK_QUERY_VAR
      (prefRaw (jstr "?preferences=/admin&labels="))) = false ∧
    (parsePreferences (jstr "?preferences=/admin&labels=")).params = [] :=
  ⟨claim_C9.1, by decide, claim_C9.2 (jstr "?preferences=/admin&labels=") (by decide)⟩

/-- C2 counterexample: for the pathname `/a.aragonid.ethb.aragonid.eth`,
whose single segment ends with `aragonid.eth` and is accepted by the domain
validator, the redirect removes the FIRST occurrence of `.aragonid.eth`,
producing `/ab.aragonid.eth`, which differs from the pathname with the
trailing suffix removed (`/a.aragonid.ethb`) as the claim would require. -/
theorem claim_C2_counterexample :
    (parsePath (fun _ => false) (fun _ => true)
        (jstr "/a.aragonid.ethb.aragonid.eth") []).redirect =
      some ⟨jstr "/ab.aragonid.eth", [], true⟩ ∧
    jstr "/ab.aragonid.eth" ≠ jstr "/a.aragonid.ethb" :=
  ⟨by decide, by decide⟩

/-- C2 amended: whenever the first path segment is a valid ENS name per the
injected validator and ends with `aragonid.eth`, `parsePath` issues exactly
one replace request, carrying the same search string and the
`alreadyParsed` flag, whose pathname is the input pathname with the FIRST
occurrence of `.aragonid.eth` removed (this is the trailing suffix whenever
that is the only occurrence); and the returned locator still carries the
original unshortened `dao`. -/
theorem claim_C2_amended (iA iV : JStr → Bool) (pathname search : JStr) (x dao : JStr)
    (rest : List JStr) (hsplit : splitChar '/' pathname = x :: dao :: rest)
    (hv : iV dao = true) (he : jsEndsWith ARAGONID_ENS_DOMAIN dao = true) :
    (parsePath iA iV pathname search).redirect =
      some ⟨jsReplaceFirst ('.' :: ARAGONID_ENS_DOMAIN) [] pathname, search, true⟩ ∧
    (parsePath iA iV pathname search).locator.dao? = some dao := by
  have h0 : dao ≠ [] := by
    intro hd; subst hd; exact absurd he (by decide)
  have h1 : dao ≠ jstr "open" := by
    intro hd; subst hd; exact absurd he (by decide)
  have h2 : dao ≠ jstr "create" := by
    intro hd; subst hd; exact absurd he (by decide)
  have h3 : dao ≠ jstr "setup" := by
    intro hd; subst hd; exact absurd he (by decide)
  rw [parsePath_org iA iV pathname search x dao rest hsplit h0 h1 h2 h3]
  constructor
  · simp [orgRedirect, hv, he]
  · simp [Locator.dao?, orgDao, hv]

/-- C2 witness: the claim's own example `/mydao.aragonid.eth` redirects to
`/mydao` with the same (empty) search and the `alreadyParsed` flag, and the
locator keeps `dao = mydao.aragonid.eth`. -/
theorem claim_C2_witness :
    jsEndsWith ARAGONID_ENS_DOMAIN (jstr "mydao.aragonid.eth") = true ∧
    (parsePath (fun _ => false) (fun _ => true) (jstr "/mydao.aragonid.eth") []).redirect =
      some ⟨jstr "/mydao", [], true⟩ ∧
    (parsePath (fun _ => false) (fun _ => true)
        (jstr "/mydao.aragonid.eth") []).locator.dao? = some (jstr "mydao.aragonid.eth") := by
  have h := claim_C2_amended (fun _ => false) (fun _ => true) (jstr "/mydao.aragonid.eth")
    [] [] (jstr "mydao.aragonid.eth") [] (by decide) rfl (by decide)
  exact ⟨by decide, h.1.trans (by decide), h.2⟩

/-- C3 counterexample: for `search = "?p=abc?p=def"`, the claim predicts
that everything after the first `?p=` (the decodable string `abc?p=def`) is
decoded into `params`, but the code takes only the split segment between
the two markers, yielding `params = "abc"`. -/
theorem claim_C3_counterexample :
    (parsePath (fun _ => false) (fun _ => false) (jstr "/mydao")
        (jstr "?p=abc?p=def")).locator.params? = some (jstr "abc") ∧
    decodeURIComponent (jstr "abc?p=def") = some (jstr "abc?p=def") ∧
    some (jstr "abc") ≠ some (jstr "abc?p=def") :=
  ⟨by decide, by decide, by decide⟩

/-- C3 amended: when `search` contains the marker `?p=` and `parsePath`
takes the organization branch, the `params` field is the percent-decoding
of the portion of `search` between the first and second occurrences of
`?p=` (everything after the first when it occurs only once), and is null
when that portion is empty or fails to decode. -/
theorem claim_C3_amended (iA iV : JStr → Bool) (pathname search : JStr) (x dao : JStr)
    (rest : List JStr) (hsplit : splitChar '/' pathname = x :: dao :: rest)
    (h0 : dao ≠ []) (h1 : dao ≠ jstr "open") (h2 : dao ≠ jstr "create")
    (h3 : dao ≠ jstr "setup") (pre mid : JStr)
    (hmarker : splitFirst (jstr "?p=") search = some (pre, mid)) :
    (parsePath iA iV pathname search).locator.params? =
      (if jsSplitGet0 (jstr "?p=") mid = [] then none
       else decodeURIComponent (jsSplitGet0 (jstr "?p=") mid)) := by
  rw [parsePath_org iA iV pathname search x dao rest hsplit h0 h1 h2 h3]
  have hne : search ≠ [] := by
    intro hs
    subst hs
    rw [show splitFirst (jstr "?p=") [] = none from rfl] at hmarker
    exact Option.noConfusion hmarker
  simp only [Locator.params?]
  unfold extractParams extractRawParams
  rw [if_neg hne]
  unfold jsSplitGet1
  rw [hmarker]

/-- C3 witness: the spec's own example shape, `/0xcafe/voting` with
`search = "?p=a%20b"`, yields `params = "a b"`. -/
theorem claim_C3_witness :
    splitFirst (jstr "?p=") (jstr "?p=a%20b") = some ([], jstr "a%20b") ∧
    (parsePath (fun s => decide (s = jstr "0xcafe")) (fun _ => false)
        (jstr "/0xcafe/voting") (jstr "?p=a%20b")).locator.params? = some (jstr "a b") := by
  have h := claim_C3_amended (fun s => decide (s = jstr "0xcafe")) (fun _ => false)
    (jstr "/0xcafe/voting") (jstr "?p=a%20b") [] (jstr "0xcafe") [jstr "voting"]
    (by decide) (by decide) (by decide) (by decide) (by decide) [] (jstr "a%20b") (by decide)
  exact ⟨by decide, h.trans (by decide)⟩

/-- C4: when the decoded `p` parameter extracted from `search` fails to
percent-decode, `parsePath` still returns normally: the locator is the
organization locator with `params = null` and every other field (path, dao,
instanceId, parts, preferences) computed exactly as when no decodable
params are given, and the redirect behaviour is unchanged. -/
theorem claim_C4 (iA iV : JStr → Bool) (pathname search : JStr) (x dao : JStr)
    (rest : List JStr) (hsplit : splitChar '/' pathname = x :: dao :: rest)
    (h0 : dao ≠ []) (h1 : dao ≠ jstr "open") (h2 : dao ≠ jstr "create")
    (h3 : dao ≠ jstr "setup") (pre mid : JStr)
    (hmarker : splitFirst (jstr "?p=") search = some (pre, mid))
    (hdec : decodeURIComponent (jsSplitGet0 (jstr "?p=") mid) = none) :
    parsePath iA iV pathname search =
      ⟨Locator.org (pathname ++ search) (orgDao (iA dao) (iV dao) dao)
          (orgInstanceId (dao :: rest)) none (rest.drop 1) (parsePreferences search),
        orgRedirect (iA dao) (iV dao) pathname search dao⟩ := by
  rw [parsePath_org iA iV pathname search x dao rest hsplit h0 h1 h2 h3]
  have hne : search ≠ [] := by
    intro hs
    subst hs
    rw [show splitFirst (jstr "?p=") [] = none from rfl] at hmarker
    exact Option.noConfusion hmarker
  have hp : extractParams search = none := by
    unfold extractParams extractRawParams
    rw [if_neg hne]
    unfold jsSplitGet1
    rw [hmarker]
    by_cases hr : jsSplitGet0 (jstr "?p=") mid = []
    · simp [hr]
    · simp only [if_neg hr]
      exact hdec
  rw [hp]

/-- C4 witness: `search = "?p=%zz"` contains an invalid percent escape; the
parse completes with `params = null` and the normal organization fields. -/
theorem claim_C4_witness :
    decodeURIComponent (jsSplitGet0 (jstr "?p=") (jstr "%zz")) = none ∧
    (parsePath (fun _ => false) (fun _ => false) (jstr "/mydao")
        (jstr "?p=%zz")).locator.params? = none := by
  have h := claim_C4 (fun _ => false) (fun _ => false) (jstr "/mydao") (jstr "?p=%zz") []
    (jstr "mydao") [] (by decide) (by decide) (by decide) (by decide) (by decide) []
    (jstr "%zz") (by decide) (by decide)
  refine ⟨by decide, ?_⟩
  rw [h]
  rfl

/-! ## Parsing a built application path -/

theorem splitChar_cons_self (c : Char) (s : JStr) :
    splitChar c (c :: s) = [] :: splitChar c s := by
  rw [splitChar, if_pos rfl]

theorem qmark_not_mem_url (d instanceId : JStr) (hdq : '?' ∉ d) (hiq : '?' ∉ instanceId) :
    '?' ∉ '/' :: (d ++ '/' :: instanceId) := by
  intro hmem
  simp only [List.mem_cons, List.mem_append] at hmem
  rcases hmem with h | h | h | h
  · exact absurd h (by decide)
  · exact hdq h
  · exact absurd h (by decide)
  · exact hiq h

theorem splitChar_built (d instanceId : JStr) (hds : '/' ∉ d) (his : '/' ∉ instanceId) :
    splitChar '/' ('/' :: (d ++ '/' :: instanceId)) = [] :: d :: [instanceId] := by
  rw [splitChar_cons_self, splitChar_append '/' d instanceId hds,
    splitChar_not_mem '/' instanceId his]

theorem parse_built_path_none (iA iV : JStr → Bool) (d instanceId : JStr)
    (hd0 : d ≠ []) (hd1 : d ≠ jstr "open") (hd2 : d ≠ jstr "create") (hd3 : d ≠ jstr "setup")
    (hds : '/' ∉ d) (hdq : '?' ∉ d)
    (hi0 : instanceId ≠ []) (his : '/' ∉ instanceId) (hiq : '?' ∉ instanceId) :
    parsePath iA iV (splitLocation ('/' :: (d ++ '/' :: instanceId))).1
        (splitLocation ('/' :: (d ++ '/' :: instanceId))).2 =
      ⟨Locator.org ('/' :: (d ++ '/' :: instanceId)) (orgDao (iA d) (iV d) d) instanceId
          none [] ⟨some [], []⟩,
        orgRedirect (iA d) (iV d) ('/' :: (d ++ '/' :: instanceId)) [] d⟩ := by
  have hsl : splitLocation ('/' :: (d ++ '/' :: instanceId)) =
      ('/' :: (d ++ '/' :: instanceId), []) := by
    unfold splitLocation
    rw [splitFirst_head_not_mem '?' [] _ (qmark_not_mem_url d instanceId hdq hiq)]
  rw [hsl]
  rw [parsePath_org iA iV _ [] [] d [instanceId] (splitChar_built d instanceId hds his)
    hd0 hd1 hd2 hd3]
  rw [show orgInstanceId (d :: [instanceId]) =
      (if instanceId = [] then jstr "home" else instanceId) from rfl, if_neg hi0,
    show extractParams [] = none from rfl,
    show parsePreferences [] = (⟨some [], []⟩ : Preferences) from rfl, List.append_nil]
  rfl

theorem parse_built_path_some (iA iV : JStr → Bool) (d instanceId p : JStr)
    (hd0 : d ≠ []) (hd1 : d ≠ jstr "open") (hd2 : d ≠ jstr "create") (hd3 : d ≠ jstr "setup")
    (hds : '/' ∉ d) (hdq : '?' ∉ d)
    (hi0 : instanceId ≠ []) (his : '/' ∉ instanceId) (hiq : '?' ∉ instanceId)
    (hpne : p ≠ []) :
    parsePath iA iV
        (splitLocation
          ('/' :: (d ++ '/' :: (instanceId ++ (jstr "?p=" ++ encodeURIComponent p))))).1
        (splitLocation
          ('/' :: (d ++ '/' :: (instanceId ++ (jstr "?p=" ++ encodeURIComponent p))))).2 =
      ⟨Locator.org
          (('/' :: (d ++ '/' :: instanceId)) ++ ('?' :: (jstr "p=" ++ encodeURIComponent p)))
          (orgDao (iA d) (iV d) d) instanceId (some p) []
          (parsePreferences ('?' :: (jstr "p=" ++ encodeURIComponent p))),
        orgRedirect (iA d) (iV d) ('/' :: (d ++ '/' :: instanceId))
          ('?' :: (jstr "p=" ++ encodeURIComponent p)) d⟩ := by
  have hqp : (jstr "?p=" : JStr) = '?' :: jstr "p=" := by decide
  have hurl : '/' :: (d ++ '/' :: (instanceId ++ (jstr "?p=" ++ encodeURIComponent p))) =
      ('/' :: (d ++ '/' :: instanceId)) ++ '?' :: (jstr "p=" ++ encodeURIComponent p) := by
    rw [hqp]
    simp [List.cons_append, List.append_assoc]
  have hsl : splitLocation
      ('/' :: (d ++ '/' :: (instanceId ++ (jstr "?p=" ++ encodeURIComponent p)))) =
      ('/' :: (d ++ '/' :: instanceId), '?' :: (jstr "p=" ++ encodeURIComponent p)) := by
    unfold splitLocation
    rw [hurl, splitFirst_single '?' _ _ (qmark_not_mem_url d instanceId hdq hiq)]
  rw [hsl]
  dsimp only
  rw [parsePath_org iA iV _ _ [] d [instanceId] (splitChar_built d instanceId hds his)
    hd0 hd1 hd2 hd3]
  have hep : extractParams ('?' :: (jstr "p=" ++ encodeURIComponent p)) = some p := by
    unfold extractParams extractRawParams
    rw [if_neg (List.cons_ne_nil '?' _)]
    unfold jsSplitGet1
    rw [← List.cons_append, ← hqp, splitFirst_self_append]
    dsimp only
    rw [show jsSplitGet0 (jstr "?p=") (encodeURIComponent p) =
        encodeURIComponent p from by
      unfold jsSplitGet0
      rw [hqp, splitFirst_head_not_mem '?' (jstr "p=") (encodeURIComponent p)
          (qmark_not_mem_encode p)]]
    rw [if_neg (encode_ne_nil p hpne), decodeURIComponent_encode p]
  rw [hep]
  rw [show orgInstanceId (d :: [instanceId]) =
      (if instanceId = [] then jstr "home" else instanceId) from rfl, if_neg hi0]
  rfl

/-- C1 counterexample: the round trip fails for `params = ""` (a string the
claim quantifies over). For the valid-address dao `0xcafe` and instanceId
`voting`, `getAppPath` treats the empty params string as falsy and emits no
`?p=` marker, so re-parsing yields `params = null`, not the empty string. -/
theorem claim_C1_counterexample :
    (parsePath (fun s => decide (s = jstr "0xcafe")) (fun _ => false)
        (splitLocation (getAppPath (fun _ => none) (jstr "0xcafe") (jstr "voting")
          (some []))).1
        (splitLocation (getAppPath (fun _ => none) (jstr "0xcafe") (jstr "voting")
          (some []))).2).locator.params? = none ∧
    (none : Option JStr) ≠ some [] :=
  ⟨by decide, by decide⟩

/-- C1 amended: the round trip holds once the empty params string is
excluded. For every locator whose `dao` is a valid address per the injected
validator (a well-formed segment not containing `aragonid.eth` and not a
reserved word) or is `label.aragonid.eth` for a bare (dot-free, well-formed,
non-reserved) label rejected by both validators, whose `instanceId` is a
well-formed segment outside the static registry, and whose `params` is null
or a non-empty string, parsing the output of `getAppPath`, split at its
first `?` into pathname and search, yields an organization-mode locator with
the same `dao`, `instanceId` and `params`. -/
theorem claim_C1 (iA iV : JStr → Bool) (staticApps : JStr → Option JStr)
    (dao instanceId : JStr) (params : Option JStr)
    (hdao : (iA dao = true ∧ addressLike dao) ∨
      (∃ label, dao = label ++ '.' :: ARAGONID_ENS_DOMAIN ∧ labelLike label ∧
        iA label = false ∧ iV label = false))
    (hseg : segmentLike instanceId) (hreg : staticApps instanceId = none)
    (hp : params ≠ some []) :
    ∃ path parts prefs redirect,
      parsePath iA iV
          (splitLocation (getAppPath staticApps dao instanceId params)).1
          (splitLocation (getAppPath staticApps dao instanceId params)).2 =
        ⟨Locator.org path dao instanceId params parts prefs, redirect⟩ := by
  obtain ⟨hi0, his, hiq⟩ := hseg
  rcases hdao with ⟨hA, ⟨hd0, hds, hdq⟩, hnofix, ho, hc, hs⟩ |
    ⟨label, hdeq, ⟨hl0, hls, hlq, hldot, hlo, hlc, hlsu⟩, hlA, hlV⟩
  · cases params with
    | none =>
      have hshort : getAppPath staticApps dao instanceId none =
          '/' :: (dao ++ '/' :: instanceId) := by
        simp only [getAppPath]
        rw [hnofix, hreg]
        dsimp only
        rw [List.append_nil]
      rw [hshort, parse_built_path_none iA iV dao instanceId hd0 ho hc hs hds hdq hi0 his hiq]
      exact ⟨'/' :: (dao ++ '/' :: instanceId), [], ⟨some [], []⟩,
        orgRedirect (iA dao) (iV dao) ('/' :: (dao ++ '/' :: instanceId)) [] dao,
        by rw [show orgDao (iA dao) (iV dao) dao = dao from by simp [orgDao, hA]]⟩
    | some p =>
      have hpne : p ≠ [] := fun he => hp (by rw [he])
      have hshort : getAppPath staticApps dao instanceId (some p) =
          '/' :: (dao ++ '/' :: (instanceId ++ (jstr "?p=" ++ encodeURIComponent p))) := by
        simp only [getAppPath]
        rw [hnofix, hreg]
        dsimp only
        rw [if_neg hpne]
      rw [hshort,
        parse_built_path_some iA iV dao instanceId p hd0 ho hc hs hds hdq hi0 his hiq hpne]
      exact ⟨('/' :: (dao ++ '/' :: instanceId)) ++ ('?' :: (jstr "p=" ++ encodeURIComponent p)),
        [], parsePreferences ('?' :: (jstr "p=" ++ encodeURIComponent p)),
        orgRedirect (iA dao) (iV dao) ('/' :: (dao ++ '/' :: instanceId))
          ('?' :: (jstr "p=" ++ encodeURIComponent p)) dao,
        by rw [show orgDao (iA dao) (iV dao) dao = dao from by simp [orgDao, hA]]⟩
  · subst hdeq
    cases params with
    | none =>
      have hshort : getAppPath staticApps (label ++ '.' :: ARAGONID_ENS_DOMAIN) instanceId
          none = '/' :: (label ++ '/' :: instanceId) := by
        simp only [getAppPath]
        rw [splitFirst_dot_label label hldot, hreg]
        dsimp only
        rw [show (label ++ ['.']).length - 1 = label.length from by simp,
          List.take_left, List.append_nil]
      rw [hshort, parse_built_path_none iA iV label instanceId hl0 hlo hlc hlsu hls hlq
        hi0 his hiq]
      exact ⟨'/' :: (label ++ '/' :: instanceId), [], ⟨some [], []⟩,
        orgRedirect (iA label) (iV label) ('/' :: (label ++ '/' :: instanceId)) [] label,
        by rw [show orgDao (iA label) (iV label) label =
          label ++ '.' :: ARAGONID_ENS_DOMAIN from by simp [orgDao, hlA, hlV]]⟩
    | some p =>
      have hpne : p ≠ [] := fun he => hp (by rw [he])
      have hshort : getAppPath staticApps (label ++ '.' :: ARAGONID_ENS_DOMAIN) instanceId
          (some p) =
          '/' :: (label ++ '/' :: (instanceId ++ (jstr "?p=" ++ encodeURIComponent p))) := by
        simp only [getAppPath]
        rw [splitFirst_dot_label label hldot, hreg]
        dsimp only
        rw [show (label ++ ['.']).length - 1 = label.length from by simp,
          List.take_left, if_neg hpne]
      rw [hshort,
        parse_built_path_some iA iV label instanceId p hl0 hlo hlc hlsu hls hlq hi0 his hiq
          hpne]
      exact ⟨('/' :: (label ++ '/' :: instanceId)) ++
          ('?' :: (jstr "p=" ++ encodeURIComponent p)),
        [], parsePreferences ('?' :: (jstr "p=" ++ encodeURIComponent p)),
        orgRedirect (iA label) (iV label) ('/' :: (label ++ '/' :: instanceId))
          ('?' :: (jstr "p=" ++ encodeURIComponent p)) label,
        by rw [show orgDao (iA label) (iV label) label =
          label ++ '.' :: ARAGONID_ENS_DOMAIN from by simp [orgDao, hlA, hlV]]⟩

/-- C1 witness: the locator with dao `mydao.aragonid.eth`, instanceId
`voting` and params `"a b"` round-trips through `getAppPath` (which emits
`/mydao/voting?p=a%20b`) back to the same dao, instanceId and params. -/
theorem claim_C1_witness :
    (labelLike (jstr "mydao") ∧ segmentLike (jstr "voting") ∧
      (some (jstr "a b") : Option JStr) ≠ some []) ∧
    ∃ path parts prefs redirect,
      parsePath (fun _ => false) (fun _ => false)
          (splitLocation (getAppPath (fun _ => none) (jstr "mydao.aragonid.eth")
            (jstr "voting") (some (jstr "a b")))).1
          (splitLocation (getAppPath (fun _ => none) (jstr "mydao.aragonid.eth")
            (jstr "voting") (some (jstr "a b")))).2 =
        ⟨Locator.org path (jstr "mydao.aragonid.eth") (jstr "voting") (some (jstr "a b"))
            parts prefs, redirect⟩ :=
  ⟨⟨by decide, by decide, by decide⟩,
    claim_C1 (fun _ => false) (fun _ => false) (fun _ => none) (jstr "mydao.aragonid.eth")
      (jstr "voting") (some (jstr "a b"))
      (Or.inr ⟨jstr "mydao", by decide, by decide, rfl, rfl⟩)
      (by decide) rfl (by decide)⟩
